import Mathlib

/-!
Verification of the music-theory core of the `neoriemannian` repository.

The definitions below are a shallow embedding of `src/utils/musicUtils.js`
(the second, `isSelfMap`-returning revision of the file) and of the constants
module (`NOTES`, `CHORD_DEFINITIONS`, `ENHARMONICS`).  JavaScript numbers are
modelled as `Int`; the JS remainder operator `%` (truncated) is `Int.tmod`;
JS arrays of notes are `List Int`; `Array.prototype.sort` with the numeric
comparator is a stable sort, modelled by `List.insertionSort`;
`undefined`-able results are `Option`s.
-/

namespace MusicUtils

/-- `mod(n, m = 12)` from musicUtils.js: `((n % m) + m) % m` with the default
modulus 12 (every call site uses the default).  JS `%` is the truncated
remainder, i.e. `Int.tmod`. -/
def mod (n : Int) : Int := (n.tmod 12 + 12).tmod 12

theorem tmod12_lt (n : Int) : n.tmod 12 < 12 :=
  Int.tmod_lt_of_pos n (by norm_num)

theorem tmod12_gt (n : Int) : -12 < n.tmod 12 := by
  rcases n with m | m
  · have h : Int.tmod (Int.ofNat m) 12 = ((m % 12 : Nat) : Int) := rfl
    rw [h]; omega
  · have h : Int.tmod (Int.negSucc m) 12 = -(((m + 1) % 12 : Nat) : Int) := rfl
    have h2 := Nat.mod_lt (m + 1) (y := 12) (by norm_num)
    rw [h]; omega

theorem tmod12_dvd (n : Int) : (12 : Int) ∣ (n - n.tmod 12) := by
  have h := Int.tmod_def n 12
  exact ⟨n.tdiv 12, by omega⟩

/-- The JS double-`%` idiom computes the mathematical (euclidean) residue. -/
theorem mod_eq_emod (n : Int) : mod n = n % 12 := by
  unfold mod
  have h1 := tmod12_lt n
  have h2 := tmod12_gt n
  have h3 := tmod12_dvd n
  rw [Int.tmod_eq_emod (by omega) (by norm_num)]
  omega

theorem mod_bounds (n : Int) : 0 ≤ mod n ∧ mod n < 12 := by
  rw [mod_eq_emod]; omega

/-- `NOTES` from constants: the twelve chromatic note names. -/
def NOTES : List String :=
  ["C", "C#", "D", "Eb", "E", "F", "F#", "G", "Ab", "A", "Bb", "B"]

/-- One entry of `CHORD_DEFINITIONS`. -/
structure ChordDef where
  name : String
  suffix : String
  intervals : List Int
deriving DecidableEq

/-- `CHORD_DEFINITIONS` from constants, in declared order. -/
def CHORD_DEFINITIONS : List ChordDef :=
  [⟨"Major", "", [0, 4, 7]⟩,
   ⟨"Minor", "m", [0, 3, 7]⟩,
   ⟨"Diminished", "dim", [0, 3, 6]⟩,
   ⟨"Augmented", "aug", [0, 4, 8]⟩,
   ⟨"Major 7", "maj7", [0, 4, 7, 11]⟩,
   ⟨"Minor 7", "m7", [0, 3, 7, 10]⟩,
   ⟨"Dominant 7", "7", [0, 4, 7, 10]⟩,
   ⟨"Diminished 7", "dim7", [0, 3, 6, 9]⟩,
   ⟨"Half Dim 7", "m7b5", [0, 3, 6, 10]⟩,
   ⟨"Sus 4", "sus4", [0, 5, 7]⟩,
   ⟨"Sus 2", "sus2", [0, 2, 7]⟩,
   ⟨"Add 9", "add9", [0, 2, 4, 7]⟩,
   ⟨"Minor 9", "m9", [0, 3, 7, 10, 14]⟩,
   ⟨"Major 9", "maj9", [0, 4, 7, 11, 14]⟩,
   ⟨"Dominant 9", "9", [0, 4, 7, 10, 14]⟩]

/-- `ENHARMONICS` from constants, as an association list (JS object). -/
def ENHARMONICS : List (String × Int) :=
  [("Db", 1), ("D#", 3), ("Eb", 3), ("Gb", 6), ("G#", 8),
   ("Ab", 8), ("A#", 10), ("Bb", 10), ("E#", 5), ("B#", 0),
   ("Cb", 11), ("Fb", 4)]

/-- `normalize(notes)`: map through `mod`, then sort ascending.  No
deduplication happens beyond what the reduction itself produces. -/
def normalize (notes : List Int) : List Int :=
  List.insertionSort (· ≤ ·) (notes.map mod)

/-- `arraysEqual(a, b)`: `JSON.stringify(normalize(a)) === JSON.stringify(normalize(b))`,
i.e. equality of the normalized lists. -/
def arraysEqual (a b : List Int) : Bool :=
  normalize a == normalize b

/-- The record returned by `identifyChord`. -/
structure ChordInfo where
  root : Int
  type : String
  label : String
  name : String
deriving DecidableEq

/-- Boolean prefix test on character lists (helper for JS `String.includes`). -/
def isPrefixList : List Char → List Char → Bool
  | [], _ => true
  | _ :: _, [] => false
  | a :: as, b :: bs => a == b && isPrefixList as bs

/-- JS `String.prototype.includes`: some suffix of the haystack starts with
the needle. -/
def containsSub (needle : List Char) : List Char → Bool
  | [] => needle.isEmpty
  | c :: rest => isPrefixList needle (c :: rest) || containsSub needle rest

/-- The `type` categorisation chain inside `identifyChord` (lines 552-559). -/
def typeOfName (name : String) : String :=
  if name == "Major" then "Major"
  else if name == "Minor" then "Minor"
  else if name == "Diminished" then "Dim"
  else if name == "Augmented" then "Aug"
  else if containsSub "Sus".data name.data then "Sus"
  else if containsSub "7".data name.data || containsSub "9".data name.data then "Seventh"
  else "Other"

/-- The `ChordInfo` built by `identifyChord` on a successful match:
`{ root, type, label: NOTES[root] + suffix, name }`. -/
def mkChordInfo (r : Int) (d : ChordDef) : ChordInfo :=
  ⟨r, typeOfName d.name, NOTES.getD r.toNat "undefined" ++ d.suffix, d.name⟩

/-- `sorted.map(n => mod(n - potentialRoot)).sort((a, b) => a - b)` from
`identifyChord` / `analyzeTrichord`. -/
def intervalsFrom (sorted : List Int) (r : Int) : List Int :=
  List.insertionSort (· ≤ ·) (sorted.map fun n => mod (n - r))

/-- The root-candidate loop of `identifyChord` (lines 545-568): for each
member of the normalized collection, in order, scan the catalog in declared
order (`Array.prototype.find`) and stop at the first match. -/
def idLoop (sorted : List Int) : List Int → Option ChordInfo
  | [] => none
  | r :: rest =>
    match CHORD_DEFINITIONS.find? (fun d => arraysEqual d.intervals (intervalsFrom sorted r)) with
    | some d => some (mkChordInfo r d)
    | none => idLoop sorted rest

/-- `identifyChord(notes)` (lines 541-577).  The fallback root is
`sorted[0]`, modelled by `headI` (the JS code would yield `undefined`
for an empty collection; no claim exercises that case). -/
def identifyChord (notes : List Int) : ChordInfo :=
  (idLoop (normalize notes) (normalize notes)).getD
    ⟨(normalize notes).headI, "Unknown", "?", "Unknown"⟩

/-- `buildChord(root, intervals)` (lines 632-634). -/
def buildChord (root : Int) (intervals : List Int) : List Int :=
  intervals.map fun i => mod (root + i)

/-- JS `String.prototype.trim` whitespace class: WhiteSpace ∪ LineTerminator
(space, tab, LF, CR, VT, FF, NBSP, BOM, and the Unicode space separators). -/
def isJsWs (c : Char) : Bool :=
  c == ' ' || c == '\t' || c == '\n' || c == '\r' || c == '\x0b' || c == '\x0c' ||
  c == '\u00A0' || c == '\uFEFF' || c == '\u1680' ||
  ('\u2000' ≤ c && c ≤ '\u200A') || c == '\u2028' || c == '\u2029' ||
  c == '\u202F' || c == '\u205F' || c == '\u3000'

/-- `str.trim()` on the character list. -/
def jsTrim (cs : List Char) : List Char :=
  ((cs.dropWhile isJsWs).reverse.dropWhile isJsWs).reverse

/-- JS regex LineTerminator class: the four characters that `.` never
matches and that `$` (without the `m` flag) cannot look past. -/
def isLineTerm (c : Char) : Bool :=
  c == '\n' || c == '\r' || c == '\u2028' || c == '\u2029'

def noLineTerm (cs : List Char) : Bool :=
  cs.all fun c => !isLineTerm c

/-- `[A-G]` with the `i` flag. -/
def isRootLetter (c : Char) : Bool :=
  ('A' ≤ c && c ≤ 'G') || ('a' ≤ c && c ≤ 'g')

/-- `[#b]` with the `i` flag: case-insensitivity makes `B` match too. -/
def isAcc (c : Char) : Bool :=
  c == '#' || c == 'b' || c == 'B'

/-- `str.match(/^([A-G][#b]?)(.*)$/i)`, returning (group 1, group 2).  The
optional accidental is greedy; `(.*)$` succeeds exactly when the remainder
contains no line terminator (and backtracking out of the accidental can
never rescue a failed `(.*)$`, since the shorter group only grows the
remainder). -/
def jsMatch (cs : List Char) : Option (List Char × List Char) :=
  match cs with
  | [] => none
  | c :: rest =>
    if isRootLetter c then
      match rest with
      | [] => some ([c], [])
      | a :: rest2 =>
        if isAcc a then
          if noLineTerm rest2 then some ([c, a], rest2) else none
        else
          if noLineTerm rest then some ([c], rest) else none
    else none

/-- `match[1].charAt(0).toUpperCase() + (match[1].slice(1) || '')`. -/
def rootNameOf (g1 : List Char) : String :=
  match g1 with
  | [] => ""
  | c :: rest => String.mk (c.toUpper :: rest)

/-- Root resolution (lines 595-603): `NOTES.indexOf`, falling back to the
`ENHARMONICS` table, `none` playing the role of `-1`. -/
def rootLookup (name : String) : Option Int :=
  match NOTES.findIdx? (fun s => s == name) with
  | some i => some (Int.ofNat i)
  | none => List.lookup name ENHARMONICS

/-- Stable insertion used to model the (stable, per ES2019)
`[...CHORD_DEFINITIONS].sort((a, b) => b.suffix.length - a.suffix.length)`:
an element moves past only strictly longer suffixes, so equal lengths keep
catalog order. -/
def stableInsert (d : ChordDef) : List ChordDef → List ChordDef
  | [] => [d]
  | e :: es =>
    if e.suffix.length > d.suffix.length then e :: stableInsert d es
    else d :: e :: es

def sortBySuffixLenDesc : List ChordDef → List ChordDef
  | [] => []
  | d :: ds => stableInsert d (sortBySuffixLenDesc ds)

/-- `toLowerCase` character by character (all relevant data is ASCII). -/
def strToLower (s : String) : String :=
  String.mk (s.data.map Char.toLower)

/-- The quality predicate of the `find` at lines 611-618, including the four
alias lines.  Note that its `q == "M"` test is checked against an already
lower-cased quality. -/
def qMatch (q : String) (d : ChordDef) : Bool :=
  (d.suffix == "" && (q == "" || q == "maj" || q == "M")) ||
  (d.suffix == "m" && (q == "min" || q == "-")) ||
  (d.suffix == "aug" && q == "+") ||
  (d.suffix == "dim" && q == "o") ||
  (strToLower d.suffix == q)

/-- `parseChordString(str)` (lines 588-624). -/
def parseChordString (s : String) : Option (List Int) :=
  match jsMatch (jsTrim s.data) with
  | none => none
  | some (g1, g2) =>
    match rootLookup (rootNameOf g1) with
    | none => none
    | some root =>
      let quality := strToLower (String.mk g2)
      let intervals :=
        match (sortBySuffixLenDesc CHORD_DEFINITIONS).find? (qMatch quality) with
        | some d => d.intervals
        | none => [0, 4, 7]
      some (intervals.map fun i => mod (root + i))

/-- `getNegativeNote(note, keyRoot)` (lines 651-656):
`mod(keyRoot + mod(keyRoot + 7) - note)`. -/
def getNegativeNote (note : Int) (keyRoot : Int) : Int :=
  mod ((keyRoot + mod (keyRoot + 7)) - note)

/-- `getNegativeChord(chordNotes, keyRoot)` (lines 666-668). -/
def getNegativeChord (chordNotes : List Int) (keyRoot : Int) : List Int :=
  chordNotes.map fun n => getNegativeNote n keyRoot

/-- One entry of the `knownStructures` table in `analyzeTrichord`. -/
structure KnownShape where
  x : Int
  y : Int
  type : String
  isSymmetric : Bool
deriving DecidableEq

/-- The `knownStructures` table (lines 694-701). -/
def knownStructures : List KnownShape :=
  [⟨4, 3, "Major", false⟩,
   ⟨3, 4, "Minor", false⟩,
   ⟨3, 3, "Dim", true⟩,
   ⟨4, 4, "Aug", true⟩,
   ⟨5, 2, "Sus4", false⟩,
   ⟨2, 5, "Sus2", false⟩]

/-- The record returned by `analyzeTrichord`. -/
structure Trichord where
  root : Int
  x : Int
  y : Int
  type : String
  isSymmetric : Bool
deriving DecidableEq

/-- The root-candidate loop of `analyzeTrichord` (lines 703-714). -/
def findShapeLoop (sorted : List Int) : List Int → Option Trichord
  | [] => none
  | r :: rest =>
    let intervals := intervalsFrom sorted r
    let x := intervals.getD 1 0
    let y := intervals.getD 2 0 - intervals.getD 1 0
    match knownStructures.find? (fun s => s.x == x && s.y == y) with
    | some s => some ⟨r, x, y, s.type, s.isSymmetric⟩
    | none => findShapeLoop sorted rest

/-- `analyzeTrichord(notes)` (lines 683-727): non-trichords fall back to
`identifyChord` with a synthetic major shape; trichords search the shape
table per candidate root, else use the smallest note as root. -/
def analyzeTrichord (notes : List Int) : Trichord :=
  if notes.length ≠ 3 then
    ⟨(identifyChord notes).root, 4, 3, (identifyChord notes).type, false⟩
  else
    match findShapeLoop (normalize notes) (normalize notes) with
    | some t => t
    | none =>
      let intervals := intervalsFrom (normalize notes) (normalize notes).headI
      let x := intervals.getD 1 0
      let y := intervals.getD 2 0 - intervals.getD 1 0
      ⟨(normalize notes).headI, x, y, "Unknown", x == y⟩

/-- The record returned by the transformations; `applyTransform`'s default
branch carries no `type` property, hence the `Option`. -/
structure TransformationResult where
  notes : List Int
  isSelfMap : Bool
  type : Option String
deriving DecidableEq

/-- `transformP(notes)` (lines 746-764). -/
def transformP (notes : List Int) : TransformationResult :=
  let a := analyzeTrichord notes
  if a.isSymmetric then ⟨notes, true, some a.type⟩
  else
    ⟨notes.map (fun n => if mod (n - a.root) = a.x then mod (a.root + a.y) else n),
     false, some a.type⟩

/-- `transformL(notes)` (lines 785-830). -/
def transformL (notes : List Int) : TransformationResult :=
  let a := analyzeTrichord notes
  if a.type = "Aug" then ⟨notes, true, some a.type⟩
  else if a.type = "Dim" then
    ⟨notes.map (fun n => if mod (n - a.root) = mod (a.x + a.y) then mod (n + 3) else n),
     false, some "Aug"⟩
  else if a.x ≥ a.y then
    ⟨notes.map (fun n => if mod (n - a.root) = 0 then mod (n - 1) else n),
     false, some a.type⟩
  else
    ⟨notes.map (fun n => if mod (n - a.root) = mod (a.x + a.y) then mod (n + 1) else n),
     false, some a.type⟩

/-- `transformR(notes)` (lines 851-896). -/
def transformR (notes : List Int) : TransformationResult :=
  let a := analyzeTrichord notes
  if a.type = "Aug" then ⟨notes, true, some a.type⟩
  else if a.type = "Dim" then
    ⟨notes.map (fun n => if mod (n - a.root) = 0 then mod (n + 9) else n),
     false, some "Aug"⟩
  else if a.x ≥ a.y then
    ⟨notes.map (fun n => if mod (n - a.root) = mod (a.x + a.y) then mod (n + 2) else n),
     false, some a.type⟩
  else
    ⟨notes.map (fun n => if mod (n - a.root) = 0 then mod (n - 2) else n),
     false, some a.type⟩

/-- `applyTransform(notes, type)` (lines 904-911). -/
def applyTransform (notes : List Int) (ty : String) : TransformationResult :=
  if ty = "P" then transformP notes
  else if ty = "L" then transformL notes
  else if ty = "R" then transformR notes
  else ⟨notes, false, none⟩

/-! ## Claim C1: catalog round-trip through `buildChord` / `identifyChord` -/

/-- The name `identifyChord` actually reports for a catalog chord built on
root `r`: the two sus chords are mutual rotations
(`sus4(r) = sus2(r+5)` as pitch-class sets), and the ascending root scan
reaches the other chord's root first whenever that root is numerically
smaller. -/
def roundtripExpected (name : String) (r : Fin 12) : String :=
  if name = "Sus 4" ∧ 7 ≤ r.val then "Sus 2"
  else if name = "Sus 2" ∧ 5 ≤ r.val then "Sus 4"
  else name

/-- C1 counterexample: the `Sus 4` catalog entry built on root 7 is
identified as `Sus 2`, so the claimed round-trip
`identifyChord(buildChord(root, def.intervals)).name == def.name` fails at
`(def = Sus 4, root = 7)`. -/
theorem identifyChord_buildChord_sus4_root7 :
    (⟨"Sus 4", "sus4", [0, 5, 7]⟩ : ChordDef) ∈ CHORD_DEFINITIONS ∧
    (identifyChord (buildChord 7 [0, 5, 7])).name ≠ "Sus 4" := by
  decide

set_option maxHeartbeats 1000000 in
/-- C1 (amended): for every catalog entry and every root 0–11 the round-trip
`identifyChord(buildChord(root, def.intervals)).name` returns `def.name`,
except that `Sus 4` at roots 7–11 is reported as `Sus 2` and `Sus 2` at
roots 5–11 is reported as `Sus 4` (the identifier returns the
enharmonically identical sus chord whose root comes first in the ascending
scan). -/
theorem identifyChord_buildChord_roundtrip_amended :
    ∀ d ∈ CHORD_DEFINITIONS, ∀ r : Fin 12,
      (identifyChord (buildChord (r : Int) d.intervals)).name = roundtripExpected d.name r := by
  decide

/-- C1 witness: the amended round-trip instantiated at the Major entry and
root 3. -/
theorem identifyChord_buildChord_roundtrip_amended_witness :
    (identifyChord (buildChord ((3 : Fin 12) : Int) [0, 4, 7])).name = roundtripExpected "Major" 3 :=
  identifyChord_buildChord_roundtrip_amended ⟨"Major", "", [0, 4, 7]⟩ (by decide) 3

/-! ## Claim C2: reflection of the C-major triad -/

/-- C2 counterexample: `getNegativeChord([0,4,7], 0)` is not `[5,8,0]` (the
value asserted by the claim). -/
theorem getNegativeChord_cmajor_ne_fminor : getNegativeChord [0, 4, 7] 0 ≠ [5, 8, 0] := by
  decide

/-- C2 (amended): with `keyRoot = 0` the axis sum is `0 + mod 7 = 7`, so the
C-major triad `[0,4,7]` reflects to `[7,3,0]` — the C-minor collection, in
input order. -/
theorem getNegativeChord_cmajor_eq_cminor : getNegativeChord [0, 4, 7] 0 = [7, 3, 0] := by
  decide

/-! ## Claim C6: note reflection is an involution -/

/-- C6: for all integers `n` and `k`,
`getNegativeNote(getNegativeNote(n, k), k) = mod(n)`. -/
theorem getNegativeNote_involution (n k : Int) :
    getNegativeNote (getNegativeNote n k) k = mod n := by
  unfold getNegativeNote
  simp only [mod_eq_emod]
  omega

/-! ## Claim C7: quality aliases in `parseChordString` -/

/-- C7 (code bug witness): the input `"CM"` parses to the minor triad
`[0,3,7]`, not the major triad: the quality is lower-cased to `"m"` before
the alias test `quality === 'M'` is ever consulted, so that test is
unreachable and the exact-suffix rule matches the Minor definition. -/
theorem parseChordString_CM_minor : parseChordString "CM" = some [0, 3, 7] := by
  decide


/-! ## Shared helper lemmas -/

theorem map_getD (f : Int → Int) (l : List Int) (i : Nat) (h : i < l.length) :
    (l.map f).getD i 0 = f (l.getD i 0) := by
  have h2 : i < (l.map f).length := by simpa using h
  rw [List.getD_eq_getElem?_getD, List.getD_eq_getElem?_getD,
      List.getElem?_eq_getElem h2, List.getElem?_eq_getElem h]
  simp

theorem shapes_facts : ∀ s ∈ knownStructures,
    0 < s.x ∧ 0 < s.y ∧ s.isSymmetric = (s.x == s.y) := by
  decide

theorem findShape_found {sorted l : List Int} {t : Trichord}
    (h : findShapeLoop sorted l = some t) :
    ∃ s ∈ knownStructures, t.x = s.x ∧ t.y = s.y ∧ t.type = s.type ∧
      t.isSymmetric = s.isSymmetric := by
  induction l with
  | nil => simp [findShapeLoop] at h
  | cons r rest ih =>
    rw [findShapeLoop] at h
    rcases hfind : knownStructures.find? (fun s =>
        s.x == (intervalsFrom sorted r).getD 1 0 &&
        s.y == (intervalsFrom sorted r).getD 2 0 - (intervalsFrom sorted r).getD 1 0) with _ | s
    · rw [hfind] at h
      exact ih h
    · rw [hfind] at h
      injection h with h2
      subst h2
      have hs := List.find?_some hfind
      have hmem := List.mem_of_find?_eq_some hfind
      simp only [Bool.and_eq_true, beq_iff_eq] at hs
      exact ⟨s, hmem, hs.1.symm, hs.2.symm, rfl, rfl⟩


theorem normalize_length (notes : List Int) : (normalize notes).length = notes.length := by
  have h := (List.perm_insertionSort (fun a b : Int => a ≤ b) (notes.map mod)).length_eq
  simp only [List.length_map] at h
  exact h

theorem normalize_sorted (notes : List Int) : (normalize notes).Sorted (· ≤ ·) :=
  List.sorted_insertionSort _ _

theorem normalize_mem_bounds {notes : List Int} {m : Int} (h : m ∈ normalize notes) :
    0 ≤ m ∧ m < 12 := by
  have h2 : m ∈ notes.map mod := ((List.perm_insertionSort _ _).mem_iff).mp h
  obtain ⟨n, _, rfl⟩ := List.mem_map.mp h2
  exact mod_bounds n

theorem mod_eq_self {n : Int} (h0 : 0 ≤ n) (h12 : n < 12) : mod n = n := by
  rw [mod_eq_emod]; omega

theorem intervalsFrom_three {a b c : Int} (hab : a ≤ b) (hbc : b ≤ c)
    (ha : 0 ≤ a) (hc : c < 12) :
    intervalsFrom [a, b, c] a = [0, b - a, c - a] := by
  have h1 : mod (a - a) = 0 := by rw [mod_eq_emod]; omega
  have h2 : mod (b - a) = b - a := by rw [mod_eq_emod]; omega
  have h3 : mod (c - a) = c - a := by rw [mod_eq_emod]; omega
  show List.insertionSort _ ([a, b, c].map fun n => mod (n - a)) = _
  simp only [List.map]
  rw [h1, h2, h3]
  apply List.Sorted.insertionSort_eq
  simp [List.sorted_cons]
  omega

theorem analyze_sym_eq (notes : List Int) (h3 : notes.length = 3) :
    (analyzeTrichord notes).isSymmetric =
      ((analyzeTrichord notes).x == (analyzeTrichord notes).y) := by
  unfold analyzeTrichord
  rw [if_neg (by omega)]
  rcases hfs : findShapeLoop (normalize notes) (normalize notes) with _ | t
  · rfl
  · show t.isSymmetric = (t.x == t.y)
    obtain ⟨s, hmem, hx, hy, _, hsym⟩ := findShape_found hfs
    have hf := shapes_facts s hmem
    simp only [hsym, hx, hy]
    exact hf.2.2

theorem analyze_pos (notes : List Int) (h3 : notes.length = 3)
    (hnd : (normalize notes).Nodup) :
    0 < (analyzeTrichord notes).x ∧ 0 < (analyzeTrichord notes).y := by
  unfold analyzeTrichord
  rw [if_neg (by omega)]
  rcases hfs : findShapeLoop (normalize notes) (normalize notes) with _ | t
  · have hlen : (normalize notes).length = 3 := by rw [normalize_length]; exact h3
    obtain ⟨a, b, c, habc⟩ := List.length_eq_three.mp hlen
    have hma : 0 ≤ a ∧ a < 12 := normalize_mem_bounds (by rw [habc]; simp)
    have hmc : 0 ≤ c ∧ c < 12 := normalize_mem_bounds (by rw [habc]; simp)
    have hsort := normalize_sorted notes
    rw [habc] at hsort hnd ⊢
    simp only [List.sorted_cons, List.mem_cons] at hsort
    simp only [List.nodup_cons, List.mem_cons] at hnd
    have hab : a ≤ b := hsort.1 b (by simp)
    have hbc : b ≤ c := hsort.2.1 c (by simp)
    have hne_ab : a ≠ b := fun h => hnd.1 (Or.inl h) |>.elim
    have hne_bc : b ≠ c := fun h => hnd.2.1 (Or.inl h) |>.elim
    show 0 < (intervalsFrom [a, b, c] ([a, b, c].headI)).getD 1 0 ∧
      0 < (intervalsFrom [a, b, c] ([a, b, c].headI)).getD 2 0 -
          (intervalsFrom [a, b, c] ([a, b, c].headI)).getD 1 0
    have hh : ([a, b, c] : List Int).headI = a := rfl
    rw [hh, intervalsFrom_three hab hbc hma.1 hmc.2]
    simp only [List.getD]
    constructor <;> [skip; skip] <;> simp <;> omega
  · show 0 < t.x ∧ 0 < t.y
    obtain ⟨s, hmem, hx, hy, _, _⟩ := findShape_found hfs
    have hf := shapes_facts s hmem
    rw [hx, hy]; exact ⟨hf.1, hf.2.1⟩


/-! ## Claim C3: the P transformation -/

/-- C3: for every 3-note chord (three distinct pitch classes), the analyzed
signature is symmetric exactly when `x = y`; when it is, P returns the input
unchanged with `isSelfMap = true`; otherwise P maps the note at interval `x`
from the root to the note at interval `y`, leaves the notes at intervals `0`
(the root) and `x + y` (the topmost note) unchanged, and reports
`isSelfMap = false`.  In particular `applyTransform([0,4,7],'P')` is
`{notes:[0,3,7], isSelfMap:false}` and `applyTransform([0,3,6],'P')` is
`{notes:[0,3,6], isSelfMap:true}`. -/
theorem transformP_spec (notes : List Int) (h3 : notes.length = 3)
    (hnd : (normalize notes).Nodup) :
    ((analyzeTrichord notes).isSymmetric = true ↔
        (analyzeTrichord notes).x = (analyzeTrichord notes).y) ∧
    ((analyzeTrichord notes).isSymmetric = true →
      transformP notes = ⟨notes, true, some (analyzeTrichord notes).type⟩) ∧
    ((analyzeTrichord notes).isSymmetric = false →
      (transformP notes).isSelfMap = false ∧
      (transformP notes).notes.length = 3 ∧
      (∀ i, i < 3 →
        (mod (notes.getD i 0 - (analyzeTrichord notes).root) = (analyzeTrichord notes).x →
          (transformP notes).notes.getD i 0 =
            mod ((analyzeTrichord notes).root + (analyzeTrichord notes).y)) ∧
        (mod (notes.getD i 0 - (analyzeTrichord notes).root) = 0 →
          (transformP notes).notes.getD i 0 = notes.getD i 0) ∧
        (mod (notes.getD i 0 - (analyzeTrichord notes).root) =
            (analyzeTrichord notes).x + (analyzeTrichord notes).y →
          (transformP notes).notes.getD i 0 = notes.getD i 0))) ∧
    applyTransform [0, 4, 7] "P" = ⟨[0, 3, 7], false, some "Major"⟩ ∧
    applyTransform [0, 3, 6] "P" = ⟨[0, 3, 6], true, some "Dim"⟩ := by
  refine ⟨?_, ?_, ?_, by decide, by decide⟩
  · rw [analyze_sym_eq notes h3]
    exact beq_iff_eq
  · intro hsym
    simp [transformP, hsym]
  · intro hsym
    obtain ⟨hxpos, hypos⟩ := analyze_pos notes h3 hnd
    have hmap : (transformP notes).notes =
        notes.map (fun n =>
          if mod (n - (analyzeTrichord notes).root) = (analyzeTrichord notes).x
          then mod ((analyzeTrichord notes).root + (analyzeTrichord notes).y) else n) := by
      simp [transformP, hsym]
    refine ⟨by simp [transformP, hsym], by rw [hmap]; simp [h3], ?_⟩
    intro i hi
    have hlen : i < notes.length := by omega
    refine ⟨?_, ?_, ?_⟩
    · intro hx
      rw [hmap, map_getD _ _ _ hlen, if_pos hx]
    · intro h0
      rw [hmap, map_getD _ _ _ hlen, if_neg (by rw [h0]; omega)]
    · intro hxy
      rw [hmap, map_getD _ _ _ hlen, if_neg (by rw [hxy]; omega)]

/-- C3 witness: the symmetric case instantiated at the diminished triad. -/
theorem transformP_spec_witness :
    transformP [0, 3, 6] = ⟨[0, 3, 6], true, some "Dim"⟩ :=
  (transformP_spec [0, 3, 6] (by decide) (by decide)).2.1 (by decide)


/-! ## Claim C4: the L transformation -/

/-- C4: for every input chord, L is the identity with `isSelfMap = true` on
analyzed type Aug; on type Dim it raises the note at interval `x + y` from
the root by 3 semitones and reports result type Aug; for every other family
it lowers the root note (interval 0) by one semitone when `x ≥ y` and
otherwise raises the topmost note (interval `x + y`) by one semitone, all
other notes unchanged.  In particular every major triad maps to the chord
with its root lowered one semitone and every minor triad to the chord with
its fifth raised one semitone. -/
theorem transformL_spec :
    (∀ notes : List Int,
      ((analyzeTrichord notes).type = "Aug" →
        transformL notes = ⟨notes, true, some "Aug"⟩) ∧
      ((analyzeTrichord notes).type = "Dim" →
        (transformL notes).isSelfMap = false ∧
        (transformL notes).type = some "Aug" ∧
        (transformL notes).notes.length = notes.length ∧
        (∀ i, i < notes.length →
          (mod (notes.getD i 0 - (analyzeTrichord notes).root) =
              mod ((analyzeTrichord notes).x + (analyzeTrichord notes).y) →
            (transformL notes).notes.getD i 0 = mod (notes.getD i 0 + 3)) ∧
          (mod (notes.getD i 0 - (analyzeTrichord notes).root) ≠
              mod ((analyzeTrichord notes).x + (analyzeTrichord notes).y) →
            (transformL notes).notes.getD i 0 = notes.getD i 0))) ∧
      ((analyzeTrichord notes).type ≠ "Aug" → (analyzeTrichord notes).type ≠ "Dim" →
        (transformL notes).isSelfMap = false ∧
        (transformL notes).type = some (analyzeTrichord notes).type ∧
        (transformL notes).notes.length = notes.length ∧
        ((analyzeTrichord notes).y ≤ (analyzeTrichord notes).x →
          ∀ i, i < notes.length →
            (mod (notes.getD i 0 - (analyzeTrichord notes).root) = 0 →
              (transformL notes).notes.getD i 0 = mod (notes.getD i 0 - 1)) ∧
            (mod (notes.getD i 0 - (analyzeTrichord notes).root) ≠ 0 →
              (transformL notes).notes.getD i 0 = notes.getD i 0)) ∧
        ((analyzeTrichord notes).x < (analyzeTrichord notes).y →
          ∀ i, i < notes.length →
            (mod (notes.getD i 0 - (analyzeTrichord notes).root) =
                mod ((analyzeTrichord notes).x + (analyzeTrichord notes).y) →
              (transformL notes).notes.getD i 0 = mod (notes.getD i 0 + 1)) ∧
            (mod (notes.getD i 0 - (analyzeTrichord notes).root) ≠
                mod ((analyzeTrichord notes).x + (analyzeTrichord notes).y) →
              (transformL notes).notes.getD i 0 = notes.getD i 0)))) ∧
    (∀ r : Fin 12, transformL (buildChord (r : Int) [0, 4, 7]) =
      ⟨[mod ((r : Int) - 1), mod ((r : Int) + 4), mod ((r : Int) + 7)], false, some "Major"⟩) ∧
    (∀ r : Fin 12, transformL (buildChord (r : Int) [0, 3, 7]) =
      ⟨[mod (r : Int), mod ((r : Int) + 3), mod ((r : Int) + 8)], false, some "Minor"⟩) := by
  refine ⟨fun notes => ⟨?_, ?_, ?_⟩, by decide, by decide⟩
  · intro htype
    simp [transformL, htype]
  · intro htype
    have hAug : (analyzeTrichord notes).type ≠ "Aug" := by rw [htype]; decide
    have hmap : (transformL notes).notes =
        notes.map (fun n =>
          if mod (n - (analyzeTrichord notes).root) =
              mod ((analyzeTrichord notes).x + (analyzeTrichord notes).y)
          then mod (n + 3) else n) := by
      simp [transformL, htype, hAug]
    refine ⟨by simp [transformL, htype, hAug], by simp [transformL, htype, hAug],
        by rw [hmap]; simp, ?_⟩
    intro i hi
    exact ⟨fun hc => by rw [hmap, map_getD _ _ _ hi, if_pos hc],
           fun hc => by rw [hmap, map_getD _ _ _ hi, if_neg hc]⟩
  · intro hA hD
    refine ⟨by simp [transformL, hA, hD]; split <;> rfl,
        by simp [transformL, hA, hD]; split <;> rfl,
        ?_, ?_, ?_⟩
    · simp [transformL, hA, hD]; split <;> simp
    · intro hge i hi
      have hmap : (transformL notes).notes =
          notes.map (fun n =>
            if mod (n - (analyzeTrichord notes).root) = 0
            then mod (n - 1) else n) := by
        simp [transformL, hA, hD, hge]
      exact ⟨fun hc => by rw [hmap, map_getD _ _ _ hi, if_pos hc],
             fun hc => by rw [hmap, map_getD _ _ _ hi, if_neg hc]⟩
    · intro hlt i hi
      have hnge : ¬ ((analyzeTrichord notes).x ≥ (analyzeTrichord notes).y) := by omega
      have hmap : (transformL notes).notes =
          notes.map (fun n =>
            if mod (n - (analyzeTrichord notes).root) =
                mod ((analyzeTrichord notes).x + (analyzeTrichord notes).y)
            then mod (n + 1) else n) := by
        simp [transformL, hA, hD, hnge]
      exact ⟨fun hc => by rw [hmap, map_getD _ _ _ hi, if_pos hc],
             fun hc => by rw [hmap, map_getD _ _ _ hi, if_neg hc]⟩


/-! ## Claim C5: the R transformation -/

/-- C5: for every input chord, R is the identity with `isSelfMap = true` on
analyzed type Aug; on type Dim it raises the root note by 9 semitones
(`2x + y` for `x = y = 3`) and reports result type Aug; for every other
family it raises the topmost note (interval `x + y`) by two semitones when
`x ≥ y` and otherwise lowers the root note by two semitones, all other
notes unchanged.  In particular every major triad maps to the chord with
its fifth raised a whole tone and every minor triad to the chord with its
root lowered a whole tone. -/
theorem transformR_spec :
    (∀ notes : List Int,
      ((analyzeTrichord notes).type = "Aug" →
        transformR notes = ⟨notes, true, some "Aug"⟩) ∧
      ((analyzeTrichord notes).type = "Dim" →
        (transformR notes).isSelfMap = false ∧
        (transformR notes).type = some "Aug" ∧
        (transformR notes).notes.length = notes.length ∧
        (∀ i, i < notes.length →
          (mod (notes.getD i 0 - (analyzeTrichord notes).root) = 0 →
            (transformR notes).notes.getD i 0 = mod (notes.getD i 0 + 9)) ∧
          (mod (notes.getD i 0 - (analyzeTrichord notes).root) ≠ 0 →
            (transformR notes).notes.getD i 0 = notes.getD i 0))) ∧
      ((analyzeTrichord notes).type ≠ "Aug" → (analyzeTrichord notes).type ≠ "Dim" →
        (transformR notes).isSelfMap = false ∧
        (transformR notes).type = some (analyzeTrichord notes).type ∧
        (transformR notes).notes.length = notes.length ∧
        ((analyzeTrichord notes).y ≤ (analyzeTrichord notes).x →
          ∀ i, i < notes.length →
            (mod (notes.getD i 0 - (analyzeTrichord notes).root) =
                mod ((analyzeTrichord notes).x + (analyzeTrichord notes).y) →
              (transformR notes).notes.getD i 0 = mod (notes.getD i 0 + 2)) ∧
            (mod (notes.getD i 0 - (analyzeTrichord notes).root) ≠
                mod ((analyzeTrichord notes).x + (analyzeTrichord notes).y) →
              (transformR notes).notes.getD i 0 = notes.getD i 0)) ∧
        ((analyzeTrichord notes).x < (analyzeTrichord notes).y →
          ∀ i, i < notes.length →
            (mod (notes.getD i 0 - (analyzeTrichord notes).root) = 0 →
              (transformR notes).notes.getD i 0 = mod (notes.getD i 0 - 2)) ∧
            (mod (notes.getD i 0 - (analyzeTrichord notes).root) ≠ 0 →
              (transformR notes).notes.getD i 0 = notes.getD i 0)))) ∧
    (∀ r : Fin 12, transformR (buildChord (r : Int) [0, 4, 7]) =
      ⟨[mod (r : Int), mod ((r : Int) + 4), mod ((r : Int) + 9)], false, some "Major"⟩) ∧
    (∀ r : Fin 12, transformR (buildChord (r : Int) [0, 3, 7]) =
      ⟨[mod ((r : Int) - 2), mod ((r : Int) + 3), mod ((r : Int) + 7)], false, some "Minor"⟩) := by
  refine ⟨fun notes => ⟨?_, ?_, ?_⟩, by decide, by decide⟩
  · intro htype
    simp [transformR, htype]
  · intro htype
    have hAug : (analyzeTrichord notes).type ≠ "Aug" := by rw [htype]; decide
    have hmap : (transformR notes).notes =
        notes.map (fun n =>
          if mod (n - (analyzeTrichord notes).root) = 0
          then mod (n + 9) else n) := by
      simp [transformR, htype, hAug]
    refine ⟨by simp [transformR, htype, hAug], by simp [transformR, htype, hAug],
        by rw [hmap]; simp, ?_⟩
    intro i hi
    exact ⟨fun hc => by rw [hmap, map_getD _ _ _ hi, if_pos hc],
           fun hc => by rw [hmap, map_getD _ _ _ hi, if_neg hc]⟩
  · intro hA hD
    refine ⟨by simp [transformR, hA, hD]; split <;> rfl,
        by simp [transformR, hA, hD]; split <;> rfl,
        ?_, ?_, ?_⟩
    · simp [transformR, hA, hD]; split <;> simp
    · intro hge i hi
      have hmap : (transformR notes).notes =
          notes.map (fun n =>
            if mod (n - (analyzeTrichord notes).root) =
                mod ((analyzeTrichord notes).x + (analyzeTrichord notes).y)
            then mod (n + 2) else n) := by
        simp [transformR, hA, hD, hge]
      exact ⟨fun hc => by rw [hmap, map_getD _ _ _ hi, if_pos hc],
             fun hc => by rw [hmap, map_getD _ _ _ hi, if_neg hc]⟩
    · intro hlt i hi
      have hnge : ¬ ((analyzeTrichord notes).x ≥ (analyzeTrichord notes).y) := by omega
      have hmap : (transformR notes).notes =
          notes.map (fun n =>
            if mod (n - (analyzeTrichord notes).root) = 0
            then mod (n - 2) else n) := by
        simp [transformR, hA, hD, hnge]
      exact ⟨fun hc => by rw [hmap, map_getD _ _ _ hi, if_pos hc],
             fun hc => by rw [hmap, map_getD _ _ _ hi, if_neg hc]⟩

/-- C4 witness: the diminished branch instantiated at `[0,3,6]`. -/
theorem transformL_spec_witness :
    (transformL [0, 3, 6]).isSelfMap = false ∧ (transformL [0, 3, 6]).type = some "Aug" :=
  ⟨((transformL_spec.1 [0, 3, 6]).2.1 (by decide)).1,
   ((transformL_spec.1 [0, 3, 6]).2.1 (by decide)).2.1⟩

/-- C5 witness: the augmented branch instantiated at `[0,4,8]`. -/
theorem transformR_spec_witness :
    transformR [0, 4, 8] = ⟨[0, 4, 8], true, some "Aug"⟩ :=
  (transformR_spec.1 [0, 4, 8]).1 (by decide)


/-! ## Claim C8: first-match semantics and fallback of `identifyChord` -/

/-- The flat list of all `(root, definition)` pairs that match, in the scan
order of `identifyChord`: outer loop over the normalized collection in
ascending order, inner loop over the catalog in declared order.  (This is
the claim-side description of the search; the theorems below relate it to
the implementation.) -/
def scanMatches (notes : List Int) : List (Int × ChordDef) :=
  (normalize notes).flatMap fun r =>
    (CHORD_DEFINITIONS.filter fun d =>
      arraysEqual d.intervals (intervalsFrom (normalize notes) r)).map fun d => (r, d)

theorem find?_eq_filter_head? {α : Type} (p : α → Bool) (l : List α) :
    l.find? p = (l.filter p).head? := by
  induction l with
  | nil => rfl
  | cons a t ih =>
    cases hpa : p a
    · rw [List.find?_cons_of_neg _ (by simp [hpa]), List.filter_cons_of_neg (by simp [hpa])]
      exact ih
    · rw [List.find?_cons_of_pos _ hpa, List.filter_cons_of_pos hpa]
      rfl

theorem idLoop_eq_scan (sorted : List Int) (l : List Int) :
    idLoop sorted l =
      ((l.flatMap fun r => (CHORD_DEFINITIONS.filter fun d =>
          arraysEqual d.intervals (intervalsFrom sorted r)).map fun d => (r, d)).head?).map
        (fun rd => mkChordInfo rd.1 rd.2) := by
  induction l with
  | nil => rfl
  | cons r rest ih =>
    rw [idLoop, List.flatMap_cons]
    rcases hfind : CHORD_DEFINITIONS.find?
        (fun d => arraysEqual d.intervals (intervalsFrom sorted r)) with _ | d
    · have h2 := find?_eq_filter_head?
        (fun d => arraysEqual d.intervals (intervalsFrom sorted r)) CHORD_DEFINITIONS
      rw [hfind] at h2
      have hfil : (CHORD_DEFINITIONS.filter fun d =>
          arraysEqual d.intervals (intervalsFrom sorted r)) = [] :=
        List.head?_eq_none_iff.mp h2.symm
      rw [hfind, hfil]
      simpa using ih
    · have h2 := find?_eq_filter_head?
        (fun d => arraysEqual d.intervals (intervalsFrom sorted r)) CHORD_DEFINITIONS
      rw [hfind] at h2
      rw [hfind, List.head?_append, List.head?_map, ← h2]
      rfl

theorem identifyChord_eq_scan (notes : List Int) :
    identifyChord notes =
      ((scanMatches notes).head?.map (fun rd => mkChordInfo rd.1 rd.2)).getD
        ⟨(normalize notes).headI, "Unknown", "?", "Unknown"⟩ := by
  unfold identifyChord scanMatches
  rw [idLoop_eq_scan]

/-- C8: `identifyChord` returns the `ChordInfo` built from the first
`(root, definition)` pair in scan order (outer loop over ascending
normalized members, inner loop over catalog order, no scoring); when no
pair matches it returns the fallback with root equal to the first (hence
smallest, the list being sorted ascending) normalized note, type
`"Unknown"`, label `"?"` and name `"Unknown"`; and it is total (a Lean
function), never throwing. -/
theorem identifyChord_first_match_spec (notes : List Int) :
    (∀ r d rest, scanMatches notes = (r, d) :: rest →
      identifyChord notes = mkChordInfo r d) ∧
    (scanMatches notes = [] →
      identifyChord notes = ⟨(normalize notes).headI, "Unknown", "?", "Unknown"⟩) ∧
    (∀ m ∈ normalize notes, (normalize notes).headI ≤ m) := by
  refine ⟨?_, ?_, ?_⟩
  · intro r d rest hscan
    rw [identifyChord_eq_scan, hscan]
    rfl
  · intro hscan
    rw [identifyChord_eq_scan, hscan]
    rfl
  · intro m hm
    have hs := normalize_sorted notes
    cases hnorm : normalize notes with
    | nil => rw [hnorm] at hm; simp at hm
    | cons a t =>
      rw [hnorm] at hm hs
      simp only [hnorm, List.headI]
      rcases List.mem_cons.mp hm with rfl | hmt
      · exact le_refl m
      · exact (List.sorted_cons.mp hs).1 m hmt

/-- C8 witness: the fallback branch instantiated at `[0,1,2]`, which matches
no catalog entry. -/
theorem identifyChord_first_match_spec_witness :
    identifyChord [0, 1, 2] = ⟨0, "Unknown", "?", "Unknown"⟩ :=
  (identifyChord_first_match_spec [0, 1, 2]).2.1 (by decide)


/-! ## Claim C10: duplicates defeat identification -/

theorem not_nodup_normalize {l : List Int} (h : ¬ (l.map mod).Nodup) :
    ¬ (normalize l).Nodup := fun hnd =>
  h (((List.perm_insertionSort _ _).nodup_iff).mp hnd)

theorem not_nodup_intervalsFrom {sorted : List Int} (h : ¬ sorted.Nodup) (r : Int) :
    ¬ (normalize (intervalsFrom sorted r)).Nodup := by
  intro hnd
  apply h
  have h1 : ((intervalsFrom sorted r).map mod).Nodup :=
    ((List.perm_insertionSort _ _).nodup_iff).mp hnd
  have h2 : (intervalsFrom sorted r).Nodup := h1.of_map mod
  have h3 : (sorted.map fun n => mod (n - r)).Nodup :=
    ((List.perm_insertionSort _ _).nodup_iff).mp h2
  exact h3.of_map _

theorem defs_normalized_nodup : ∀ d ∈ CHORD_DEFINITIONS, (normalize d.intervals).Nodup := by
  decide

theorem arraysEqual_false_of {a ints : List Int} (ha : (normalize a).Nodup)
    (hb : ¬ (normalize ints).Nodup) : arraysEqual a ints = false := by
  rw [arraysEqual]
  apply beq_eq_false_iff_ne.mpr
  intro hEq
  exact hb (hEq ▸ ha)

theorem idLoop_none_of {sorted : List Int} (h : ¬ sorted.Nodup) (l : List Int) :
    idLoop sorted l = none := by
  induction l with
  | nil => rfl
  | cons r rest ih =>
    rw [idLoop]
    have hfind : CHORD_DEFINITIONS.find?
        (fun d => arraysEqual d.intervals (intervalsFrom sorted r)) = none := by
      rw [List.find?_eq_none]
      intro d hd
      simp only [Bool.not_eq_true]
      exact arraysEqual_false_of (defs_normalized_nodup d hd) (not_nodup_intervalsFrom h r)
    rw [hfind]
    exact ih

/-- C10: `normalize` keeps duplicate pitch classes, so whenever two members
of the input are congruent mod 12 the per-root interval lists all contain a
duplicate, match no catalog entry (whose normalized interval lists are all
duplicate-free), and `identifyChord` returns the Unknown sentinel — even
when the deduplicated pitch-class set would be a catalog chord. -/
theorem identifyChord_duplicate_unknown (notes : List Int) (i j : Nat)
    (hi : i < notes.length) (hj : j < notes.length) (hij : i ≠ j)
    (heq : mod (notes.getD i 0) = mod (notes.getD j 0)) :
    identifyChord notes = ⟨(normalize notes).headI, "Unknown", "?", "Unknown"⟩ := by
  have hi2 : i < (notes.map mod).length := by simpa using hi
  have hj2 : j < (notes.map mod).length := by simpa using hj
  have hmapnd : ¬ (notes.map mod).Nodup := by
    intro hnd
    have hgi : notes.getD i 0 = notes[i] := by
      rw [List.getD_eq_getElem?_getD, List.getElem?_eq_getElem hi]; rfl
    have hgj : notes.getD j 0 = notes[j] := by
      rw [List.getD_eq_getElem?_getD, List.getElem?_eq_getElem hj]; rfl
    rw [hgi, hgj] at heq
    have h1 : (notes.map mod)[i] = (notes.map mod)[j] := by
      rw [List.getElem_map, List.getElem_map]
      exact heq
    exact hij ((hnd.getElem_inj_iff).mp h1)
  have hnnd := not_nodup_normalize hmapnd
  unfold identifyChord
  rw [idLoop_none_of hnnd]
  rfl

/-- C10 witness: `[0,12,4,7]` — the C-major triad with a doubled root — is
identified as Unknown. -/
theorem identifyChord_duplicate_unknown_witness :
    identifyChord [0, 12, 4, 7] = ⟨0, "Unknown", "?", "Unknown"⟩ := by
  have h := identifyChord_duplicate_unknown [0, 12, 4, 7] 0 1
    (by decide) (by decide) (by decide) (by decide)
  exact h.trans (by decide)


/-! ## Claim C9: totality and failure modes of `parseChordString` -/

/-- C9 counterexample: `"C\nm"` returns no result even though its root
`"C"` resolves in the primary table — the anchored regex fails because `.`
cannot match the line terminator — so "returns null only when the root does
not resolve" is false as stated. -/
theorem parseChordString_newline_counterexample :
    parseChordString "C\nm" = none ∧ rootLookup "C" = some 0 := by
  decide

/-- C9 (amended): `parseChordString` is total and fails only by returning
`none`: it returns `none` exactly when the anchored regex does not match
the trimmed input (no leading root letter, or a line terminator in the
remainder) or when the matched root name resolves in neither the primary
`NOTES` table nor the `ENHARMONICS` table; when the root resolves but no
quality suffix matches, it returns the major triad on that root instead of
failing. -/
theorem parseChordString_failure_spec (s : String) :
    (parseChordString s = none →
      jsMatch (jsTrim s.data) = none ∨
      ∃ g1 g2, jsMatch (jsTrim s.data) = some (g1, g2) ∧
        rootLookup (rootNameOf g1) = none) ∧
    (jsMatch (jsTrim s.data) = none → parseChordString s = none) ∧
    (∀ g1 g2, jsMatch (jsTrim s.data) = some (g1, g2) →
      rootLookup (rootNameOf g1) = none → parseChordString s = none) ∧
    (∀ g1 g2 root, jsMatch (jsTrim s.data) = some (g1, g2) →
      rootLookup (rootNameOf g1) = some root →
      (sortBySuffixLenDesc CHORD_DEFINITIONS).find?
        (qMatch (strToLower (String.mk g2))) = none →
      parseChordString s = some ([0, 4, 7].map fun i => mod (root + i))) := by
  refine ⟨?_, ?_, ?_, ?_⟩
  · intro hp
    rcases hm : jsMatch (jsTrim s.data) with _ | ⟨g1, g2⟩
    · exact Or.inl rfl
    · rcases hr : rootLookup (rootNameOf g1) with _ | root
      · exact Or.inr ⟨g1, g2, rfl, hr⟩
      · simp [parseChordString, hm, hr] at hp
  · intro hm
    simp [parseChordString, hm]
  · intro g1 g2 hm hr
    simp [parseChordString, hm, hr]
  · intro g1 g2 root h1 h2 h3
    simp [parseChordString, h1, h2, h3]

/-- C9 witness: the major-triad default instantiated at `"Cxyz"` (root
resolves, quality matches nothing). -/
theorem parseChordString_failure_spec_witness :
    parseChordString "Cxyz" = some ([0, 4, 7].map fun i => mod (0 + i)) :=
  (parseChordString_failure_spec "Cxyz").2.2.2 ['C'] ['x', 'y', 'z'] 0
    (by decide) (by decide) (by decide)

end MusicUtils
